import Mathlib

/-!
Shallow embedding of the viewport-transform and interaction engine of
`src/app/_components/MapView.tsx` (WesternUSC/ucc-map), together with proofs
of the specification's testable properties.

Numbers are modelled as rationals (`ℚ`): every arithmetic operation the
component performs (add, subtract, multiply, divide, min, max) is exact on
the rationals, and the spec's "within floating-point tolerance" clauses are
rendered as exact equalities.
-/

namespace UCCMap

/-- A 2D point (screen or content coordinates), as produced by
`getRelativePoint` / used for focal points in `MapView.tsx`. -/
structure Point where
  x : ℚ
  y : ℚ
deriving DecidableEq, Repr

/-- `type ViewTransform = {scale: number; x: number; y: number}`
(MapView.tsx line 26). Screen = content * scale + (x, y). -/
structure ViewTransform where
  scale : ℚ
  x : ℚ
  y : ℚ
deriving DecidableEq, Repr

/-- `const DEFAULT_TRANSFORM: ViewTransform = { scale: 1, x: 0, y: 0 }`
(MapView.tsx line 28). -/
def DEFAULT_TRANSFORM : ViewTransform := { scale := 1, x := 0, y := 0 }

/-- `const clampScale = (value) => Math.min(3, Math.max(0.75, value))`
(MapView.tsx line 80). -/
def clampScale (value : ℚ) : ℚ := min 3 (max (3/4) value)

/-- The state-updater body of `zoomAt` (MapView.tsx lines 199-217): given the
previous transform, the zoom factor and the focal screen point, either return
the previous transform unchanged (when clamping leaves the scale unchanged)
or re-solve the translate so the focal content point stays put. -/
def zoomAt (prev : ViewTransform) (factor : ℚ) (point : Point) : ViewTransform :=
  let nextScale := clampScale (prev.scale * factor)
  if nextScale = prev.scale then prev
  else
    let contentPoint : Point :=
      ⟨(point.x - prev.x) / prev.scale, (point.y - prev.y) / prev.scale⟩
    { scale := nextScale
      x := point.x - contentPoint.x * nextScale
      y := point.y - contentPoint.y * nextScale }

/-- C1. Zoom focal invariance: for every transform with positive scale, factor
and focal screen point, if the clamped new scale differs from the old scale
(so `zoomAt` produces a new transform), then the content-space point that the
focal screen point maps from under the old transform reprojects exactly to
the same screen point under the new transform. -/
theorem zoomAt_focal_invariance (t : ViewTransform) (f : ℚ) (p : Point)
    (hpos : 0 < t.scale) (hne : clampScale (t.scale * f) ≠ t.scale) :
    ((p.x - t.x) / t.scale) * (zoomAt t f p).scale + (zoomAt t f p).x = p.x ∧
    ((p.y - t.y) / t.scale) * (zoomAt t f p).scale + (zoomAt t f p).y = p.y := by
  unfold zoomAt
  simp only [if_neg hne]
  exact ⟨by ring, by ring⟩

/-- Witness for C1 at the default transform, factor 2, focal point (10, 20). -/
theorem zoomAt_focal_invariance_witness :
    ((10 - DEFAULT_TRANSFORM.x) / DEFAULT_TRANSFORM.scale) *
        (zoomAt DEFAULT_TRANSFORM 2 ⟨10, 20⟩).scale +
        (zoomAt DEFAULT_TRANSFORM 2 ⟨10, 20⟩).x = 10 ∧
    ((20 - DEFAULT_TRANSFORM.y) / DEFAULT_TRANSFORM.scale) *
        (zoomAt DEFAULT_TRANSFORM 2 ⟨10, 20⟩).scale +
        (zoomAt DEFAULT_TRANSFORM 2 ⟨10, 20⟩).y = 20 :=
  zoomAt_focal_invariance DEFAULT_TRANSFORM 2 ⟨10, 20⟩
    (by norm_num [DEFAULT_TRANSFORM])
    (by norm_num [DEFAULT_TRANSFORM, clampScale])

/-- C9. `zoomAt` is an identity no-op when clamping leaves the scale
unchanged: the updater returns the previous transform itself (`return prev`
in the source — the same value, translate components untouched), not a
rebuilt transform. -/
theorem zoomAt_identity_noop (t : ViewTransform) (f : ℚ) (p : Point)
    (h : clampScale (t.scale * f) = t.scale) : zoomAt t f p = t := by
  unfold zoomAt
  simp [h]

/-- Witness for C9 at the default transform with factor 1. -/
theorem zoomAt_identity_noop_witness :
    zoomAt DEFAULT_TRANSFORM 1 ⟨5, 7⟩ = DEFAULT_TRANSFORM :=
  zoomAt_identity_noop DEFAULT_TRANSFORM 1 ⟨5, 7⟩
    (by norm_num [DEFAULT_TRANSFORM, clampScale])

/-! ## Metadata model (RoomMeta, MapView.tsx lines 15-24) -/

/-- The `category` field of `RoomMeta` is `string | string[]` in the source;
a missing field is modelled as `none` at the use sites. -/
inductive CategoryField where
  | str (value : String)
  | arr (values : List String)
deriving DecidableEq, Repr

/-- `type RoomMeta` (MapView.tsx lines 15-24). A missing `name` is modelled
as the empty string (the source guards every use with `|| ""` or `|| id`);
the other optional fields are `Option`s. -/
structure RoomMeta where
  id : String
  name : String
  link : Option String
  floor : Option Int
  description : Option String
  category : Option CategoryField
  categories : Option (List String)
  decorative : Option Bool
deriving DecidableEq, Repr

/-- The in-memory metadata table `metaById` (a JS object keyed by `id`),
modelled as the insertion-ordered list of its records; the key of a record is
its `id` field. Record keys are unique in JS, but no theorem below needs that
assumption because every exclusion check in the source re-looks the id up. -/
abbrev MetaTable := List RoomMeta

/-- `metaById[id]`: look a record up by its key. -/
def lookupMeta (table : MetaTable) (id : String) : Option RoomMeta :=
  table.find? (fun r => r.id == id)

/-- `isDecorativeId` (MapView.tsx lines 50-56):
`if (!id) return false; return !!metaById[id]?.decorative`. -/
def isDecorativeId (table : MetaTable) (id : String) : Bool :=
  if id = "" then false
  else match lookupMeta table id with
    | some m => m.decorative.getD false
    | none => false

/-! ### JS string primitives

The source is JavaScript; `toLowerCase`, `trim`, `includes` and `startsWith`
are modelled directly by structural recursion over the character list of a
`String` (all ids and tags in play are ASCII, where `Char.toLower` agrees
with JS `toLowerCase`). -/

/-- JS `String.prototype.toLowerCase` (ASCII). -/
def jsToLower (s : String) : String := ⟨s.data.map Char.toLower⟩

/-- White space removed by JS `String.prototype.trim`. -/
def jsIsSpace (c : Char) : Bool :=
  c == ' ' || c == '\t' || c == '\n' || c == '\r'

/-- JS `String.prototype.trim`. -/
def jsTrim (s : String) : String :=
  ⟨((s.data.dropWhile jsIsSpace).reverse.dropWhile jsIsSpace).reverse⟩

/-- JS `String.prototype.startsWith`. -/
def jsStartsWith (s q : String) : Bool := q.data.isPrefixOf s.data

/-- JS `String.prototype.includes`: `q` occurs as a contiguous substring. -/
def strIncludesSub (s q : String) : Bool :=
  (List.range (s.data.length + 1)).any
    (fun i => q.data.isPrefixOf (s.data.drop i))

/-- `collectCategories` (MapView.tsx lines 82-94): merge the singular
`category` field (string or array) with the plural `categories` field and
lower-case every tag. -/
def collectCategories (room : Option RoomMeta) : List String :=
  match room with
  | none => []
  | some r =>
    let fromSingular : List String :=
      match r.category with
      | some (.str s) => [s]
      | some (.arr l) => l
      | none => []
    (fromSingular ++ r.categories.getD []).map (fun value => jsToLower value)

/-- Truthiness of the `activeCategory : string | null` React state. -/
def strTruthy : Option String → Bool
  | none => false
  | some s => s ≠ ""

/-- The value `meta.categories ?? meta.category`, normalised exactly as the
category branch of `applyHighlights` does (MapView.tsx lines 669-674):
an array is used as is, a non-empty string becomes a singleton, anything
else becomes the empty list. Note this takes `categories` INSTEAD of
`category` when both are present, and does not lower-case. -/
def normalizedCategoryValue (meta : RoomMeta) : List String :=
  match meta.categories with
  | some l => l
  | none =>
    match meta.category with
    | some (.arr l) => l
    | some (.str s) => if s ≠ "" then [s] else []
    | none => []

/-- JS `Set.add` on an insertion-ordered set modelled as a list. -/
def addIfAbsent (acc : List String) (id : String) : List String :=
  if id ∈ acc then acc else acc ++ [id]

/-- One step of the search branch body of `applyHighlights` (MapView.tsx
lines 655-663): skip decorative ids, add ids whose id or (re-looked-up) name
contains the lower-cased query. -/
def searchStep (table : MetaTable) (q : String) (acc : List String)
    (r : RoomMeta) : List String :=
  if isDecorativeId table r.id then acc
  else if strIncludesSub (jsToLower r.id) q
      || strIncludesSub (jsToLower ((lookupMeta table r.id).map (·.name) |>.getD "")) q then
    addIfAbsent acc r.id
  else acc

/-- The search branch of `applyHighlights` (MapView.tsx lines 653-664):
when the trimmed search text is non-empty, walk `Object.keys(metaById)` and
add every non-decorative id whose id or name contains the (untrimmed,
lower-cased) search text. -/
def searchMatchFold (table : MetaTable) (search : String) (acc : List String) :
    List String :=
  if jsTrim search ≠ "" then table.foldl (searchStep table (jsToLower search)) acc
  else acc

/-- One step of the category branch body of `applyHighlights` (MapView.tsx
lines 667-678): skip decorative ids, add ids whose `categories ?? category`
value contains the active tag. -/
def categoryStep (table : MetaTable) (c : String) (acc : List String)
    (r : RoomMeta) : List String :=
  if isDecorativeId table r.id then acc
  else if (normalizedCategoryValue r).contains c then addIfAbsent acc r.id
  else acc

/-- The category branch of `applyHighlights` (MapView.tsx lines 666-679):
when a category is active, walk `Object.entries(metaById)` and add every
non-decorative id whose `categories ?? category` value contains the active
tag (an exact, case-sensitive membership test on the un-merged value). -/
def categoryMatchFold (table : MetaTable) (activeCategory : Option String)
    (acc : List String) : List String :=
  if strTruthy activeCategory then
    table.foldl (categoryStep table (activeCategory.getD "")) acc
  else acc

/-- The `matches` set computed by `applyHighlights` (MapView.tsx lines
641-685), as the insertion-ordered list of ids that receive the
`ucc-highlight` marker (membership is the observable of the JS `Set`). -/
def highlightMatchIds (table : MetaTable) (search : String)
    (activeCategory : Option String) : List String :=
  categoryMatchFold table activeCategory (searchMatchFold table search [])

/-- The category-match set as claim C2 states it: non-decorative regions
whose MERGED, LOWER-CASED category set (`collectCategories`) contains the
active tag. Written from the claim text, to be compared with the source
translation `highlightMatchIds`. -/
def claimedCategoryMatchIds (table : MetaTable) (activeCategory : Option String) :
    List String :=
  match activeCategory with
  | none => []
  | some c =>
    (table.filter (fun r =>
      !(isDecorativeId table r.id)
        && (collectCategories (some r)).contains c)).map (·.id)

/-- A one-room table on which the code and claim C2 disagree: the room
declares both `category: "lab"` and `categories: ["gym"]`. -/
def c2Table : MetaTable :=
  [{ id := "r1", name := "Room 1", link := none, floor := none,
     description := none, category := some (.str "lab"),
     categories := some ["gym"], decorative := none }]

/-- C2 counterexample: with both fields present, `applyHighlights` reads only
the plural `categories` field (`??` takes the first non-nullish operand), so
a tag declared only in the singular field is NOT highlighted, while the
merged set of the claim contains it. -/
theorem categoryHighlight_cex :
    highlightMatchIds c2Table "" (some "lab") ≠ claimedCategoryMatchIds c2Table (some "lab") ∧
    highlightMatchIds c2Table "" (some "lab") = [] ∧
    claimedCategoryMatchIds c2Table (some "lab") = ["r1"] := by
  refine ⟨?_, ?_, ?_⟩ <;> decide

/-- Membership in `addIfAbsent`. -/
theorem mem_addIfAbsent (acc : List String) (x id : String) :
    id ∈ addIfAbsent acc x ↔ id ∈ acc ∨ id = x := by
  unfold addIfAbsent
  by_cases h : x ∈ acc
  · simp only [if_pos h]
    constructor
    · exact Or.inl
    · rintro (hm | rfl)
      · exact hm
      · exact h
  · simp [if_neg h, List.mem_append]

/-- Membership after folding a guarded `Set.add` step over a list of
records, for an arbitrary accumulator. Both branches of `applyHighlights`
are folds of this shape. -/
theorem mem_foldl_addIf (P : RoomMeta → Bool) (l : List RoomMeta)
    (acc : List String) (id : String) :
    id ∈ l.foldl (fun acc r => if P r then addIfAbsent acc r.id else acc) acc ↔
      id ∈ acc ∨ ∃ r, r ∈ l ∧ r.id = id ∧ P r = true := by
  induction l generalizing acc with
  | nil => simp
  | cons r rest ih =>
    simp only [List.foldl_cons, List.mem_cons]
    by_cases hp : P r = true
    · rw [if_pos hp, ih]
      simp only [mem_addIfAbsent]
      constructor
      · rintro ((hm | h) | ⟨s, hs, hsid, hPs⟩)
        · exact Or.inl hm
        · exact Or.inr ⟨r, Or.inl rfl, h.symm, hp⟩
        · exact Or.inr ⟨s, Or.inr hs, hsid, hPs⟩
      · rintro (hm | ⟨s, hs | hs, hsid, hPs⟩)
        · exact Or.inl (Or.inl hm)
        · subst hs
          exact Or.inl (Or.inr hsid.symm)
        · exact Or.inr ⟨s, hs, hsid, hPs⟩
    · rw [if_neg hp, ih]
      constructor
      · rintro (hm | ⟨s, hs, hsid, hPs⟩)
        · exact Or.inl hm
        · exact Or.inr ⟨s, Or.inr hs, hsid, hPs⟩
      · rintro (hm | ⟨s, hs | hs, hsid, hPs⟩)
        · exact Or.inl hm
        · subst hs
          exact absurd hPs hp
        · exact Or.inr ⟨s, hs, hsid, hPs⟩

/-- The category step is a guarded `Set.add` step. -/
theorem categoryStep_eq_addIf (table : MetaTable) (c : String) :
    categoryStep table c = fun acc r =>
      if !(isDecorativeId table r.id) && (normalizedCategoryValue r).contains c
      then addIfAbsent acc r.id else acc := by
  funext acc r
  unfold categoryStep
  by_cases h : isDecorativeId table r.id <;> simp [h]

/-- The search step is a guarded `Set.add` step. -/
theorem searchStep_eq_addIf (table : MetaTable) (q : String) :
    searchStep table q = fun acc r =>
      if !(isDecorativeId table r.id)
          && (strIncludesSub (jsToLower r.id) q
            || strIncludesSub (jsToLower ((lookupMeta table r.id).map (·.name) |>.getD "")) q)
      then addIfAbsent acc r.id else acc := by
  funext acc r
  unfold searchStep
  by_cases h : isDecorativeId table r.id <;> simp [h]

/-- C2 amended: for every metadata table and active (non-empty) category tag,
with no search text active, the set of highlighted ids is exactly the set of
non-decorative region ids whose `categories` field — or, only when that field
is absent, the singular `category` field (an array as is, a non-empty string
as a singleton) — contains the active tag verbatim (case-sensitively, with no
merging of the two fields and no lower-casing). -/
theorem categoryHighlight_amended (table : MetaTable) (c : String) (id : String)
    (hc : c ≠ "") :
    id ∈ highlightMatchIds table "" (some c) ↔
      ∃ r, r ∈ table ∧ r.id = id ∧ isDecorativeId table r.id = false ∧
        c ∈ normalizedCategoryValue r := by
  have hsearch : searchMatchFold table "" [] = [] := by
    unfold searchMatchFold
    rw [if_neg (by decide)]
  unfold highlightMatchIds categoryMatchFold
  rw [hsearch, if_pos (show strTruthy (some c) = true by simp [strTruthy, hc]),
    Option.getD_some, categoryStep_eq_addIf, mem_foldl_addIf]
  simp only [List.not_mem_nil, false_or, Bool.and_eq_true, Bool.not_eq_true',
    List.contains, List.elem_iff]

/-- Witness for the amended C2 on a concrete table: the `categories` field
is consulted, the singular field ignored. -/
theorem categoryHighlight_amended_witness :
    "r1" ∈ highlightMatchIds c2Table "" (some "gym") ↔
      ∃ r, r ∈ c2Table ∧ r.id = "r1" ∧ isDecorativeId c2Table r.id = false ∧
        "gym" ∈ normalizedCategoryValue r :=
  categoryHighlight_amended c2Table "gym" "r1" (by decide)

/-! ## Selection history (MapView.tsx lines 43-45, 234-251) -/

/-- An entry of `selectionHistory`: a snapshot `{id, name, link?, description?}`
taken at selection time. -/
structure HistoryEntry where
  id : String
  name : String
  link : Option String
  description : Option String
deriving DecidableEq, Repr

/-- The snapshot built by `pushRoomToHistory` (MapView.tsx lines 236-245):
`const info = metaById[id] || { id, name: id }` and then
`{ id, name: info.name || id, link: info.link, description: info.description }`. -/
def historySnapshot (table : MetaTable) (id : String) : HistoryEntry :=
  match lookupMeta table id with
  | some info =>
    { id := id, name := if info.name ≠ "" then info.name else id,
      link := info.link, description := info.description }
  | none => { id := id, name := id, link := none, description := none }

/-- The history updater of `pushRoomToHistory` (MapView.tsx lines 237-248):
drop any entry with the same id, prepend the fresh snapshot, keep the first
five entries. -/
def pushRoomToHistory (table : MetaTable) (id : String)
    (prev : List HistoryEntry) : List HistoryEntry :=
  let without := prev.filter (fun item => item.id != id)
  (historySnapshot table id :: without).take 5

/-- C4. Selection history: pushing a selection removes any existing entry
with that id, prepends the new snapshot, truncates to at most 5 entries, and
the tail never retains the pushed id; selecting A,B,A,C,D,E in sequence from
an empty history yields exactly the ids [E,D,C,A,B]. -/
theorem selectionHistory_spec :
    (∀ (table : MetaTable) (id : String) (prev : List HistoryEntry),
      (pushRoomToHistory table id prev).head? = some (historySnapshot table id) ∧
      (pushRoomToHistory table id prev).tail =
        (prev.filter (fun item => item.id != id)).take 4 ∧
      (pushRoomToHistory table id prev).length ≤ 5 ∧
      ∀ e ∈ (pushRoomToHistory table id prev).tail, e.id ≠ id) ∧
    (["A", "B", "A", "C", "D", "E"].foldl
        (fun h i => pushRoomToHistory [] i h) []).map (·.id) =
      ["E", "D", "C", "A", "B"] := by
  constructor
  · intro table id prev
    refine ⟨?_, ?_, ?_, ?_⟩
    · simp [pushRoomToHistory]
    · simp [pushRoomToHistory]
    · simp only [pushRoomToHistory, List.length_take]
      exact min_le_left _ _
    · intro e he
      simp only [pushRoomToHistory, List.take_succ_cons, List.tail_cons] at he
      have hmem := (List.take_sublist 4 _).subset he
      have hp := (List.mem_filter.mp hmem).2
      simpa using hp
  · decide

/-! ## Selection state: `finalizeSelection`, `goToRoom`, pending retry
(MapView.tsx lines 219-302, 436-443) -/

/-- React state touched by room selection and navigation, plus the mutable
refs `pendingSelectionRef` (pending cross-floor selection) and the current
`ucc-selected` marker (at most one element carries it). -/
structure SelectionState where
  floor : Int
  search : String
  focusedSuggestionIndex : Int
  activeCategory : Option String
  selectionHistory : List HistoryEntry
  pendingSelection : Option String
  selected : Option String
deriving DecidableEq, Repr

/-- The options bag of `goToRoom`. -/
structure GoToRoomOptions where
  updateSearch : Bool
  clearCategory : Bool
  highlight : Bool
deriving DecidableEq, Repr

/-- `applySelectionStyling` (MapView.tsx lines 219-232). The mounted scene is
abstracted by `present : String → Bool` — whether `svg.querySelector(#id)`
finds an element (false also covers a missing host or svg). On success the
previous marker is cleared and the target marked. -/
def applySelectionStyling (present : String → Bool) (id : String)
    (st : SelectionState) : Bool × SelectionState :=
  if present id then (true, { st with selected := some id }) else (false, st)

/-- `finalizeSelection` (MapView.tsx lines 253-262): style the target; only
on success clear the pending ref and push the room to history. -/
def finalizeSelection (present : String → Bool) (table : MetaTable)
    (id : String) (st : SelectionState) : Bool × SelectionState :=
  let res := applySelectionStyling present id st
  if res.1 then
    (true, { res.2 with
      pendingSelection := none,
      selectionHistory := pushRoomToHistory table id res.2.selectionHistory })
  else (false, st)

/-- The pending-selection retry run once after a scene mounts (MapView.tsx
lines 436-443): if a pending id exists, try `finalizeSelection` on it. -/
def mountRetry (present : String → Bool) (table : MetaTable)
    (st : SelectionState) : SelectionState :=
  match st.pendingSelection with
  | none => st
  | some pending => (finalizeSelection present table pending st).2

/-- `goToRoom` (MapView.tsx lines 264-302): programmatic navigation. Returns
`false` (no-op) for unknown or decorative ids; switches floor and defers the
selection when the target declares a different floor; otherwise finalizes,
parking the id in the pending ref if the element is not found. -/
def goToRoom (present : String → Bool) (table : MetaTable) (id : String)
    (options : GoToRoomOptions) (st : SelectionState) : Bool × SelectionState :=
  match lookupMeta table id with
  | none => (false, st)
  | some meta =>
    if isDecorativeId table id then (false, st)
    else
      let st1 := if options.clearCategory then { st with activeCategory := none } else st
      let newSearch := if meta.id ≠ "" then meta.id else id
      let st2 := if options.updateSearch then
          { st1 with search := newSearch, focusedSuggestionIndex := -1 }
        else st1
      let targetFloor := meta.floor.getD st2.floor
      if targetFloor ≠ st2.floor then
        (true, { st2 with pendingSelection := some id, floor := targetFloor })
      else
        let res := finalizeSelection present table id st2
        if res.1 then (true, res.2)
        else (true, { res.2 with pendingSelection := some id })

/-- A state with a pending cross-floor selection for room UCC146. -/
def c3State : SelectionState :=
  { floor := 2, search := "", focusedSuggestionIndex := -1, activeCategory := none,
    selectionHistory := [], pendingSelection := some "UCC146", selected := none }

/-- C3 counterexample: when the mount-time retry fails to find the target
element, the pending request is NOT cleared — it survives the failed retry
and a later mount that does contain the element still applies it. -/
theorem pendingSelection_cex :
    (mountRetry (fun _ => false) [] c3State).pendingSelection = some "UCC146" ∧
    (mountRetry (fun _ => true) []
        (mountRetry (fun _ => false) [] c3State)).selected = some "UCC146" := by
  exact ⟨rfl, rfl⟩

/-- C3 amended: the pending cross-floor selection is retried once after a
scene mounts; a failed retry leaves the state (including the pending
request) unchanged, so the request stays queued for later mounts; the
pending request is cleared only when the retry succeeds, in which case the
room is selected and pushed to history. -/
theorem pendingSelection_amended (present : String → Bool) (table : MetaTable)
    (st : SelectionState) (id : String) (h : st.pendingSelection = some id) :
    (present id = false → mountRetry present table st = st) ∧
    (present id = true →
      (mountRetry present table st).pendingSelection = none ∧
      (mountRetry present table st).selected = some id ∧
      (mountRetry present table st).selectionHistory =
        pushRoomToHistory table id st.selectionHistory) := by
  unfold mountRetry
  rw [h]
  unfold finalizeSelection applySelectionStyling
  constructor
  · intro hp
    simp [hp]
  · intro hp
    simp [hp]

/-- Witness for the amended C3: a failed retry leaves the concrete pending
state untouched. -/
theorem pendingSelection_amended_witness :
    mountRetry (fun _ => false) [] c3State = c3State :=
  (pendingSelection_amended (fun _ => false) [] c3State "UCC146" rfl).1 rfl

/-! ## Suggestion ranking (MapView.tsx lines 603-624) -/

/-- Lexicographic may-precede on character lists by code point. -/
def charListLe : List Char → List Char → Bool
  | [], _ => true
  | _ :: _, [] => false
  | a :: as, b :: bs =>
    if a.toNat < b.toNat then true
    else if b.toNat < a.toNat then false
    else charListLe as bs

/-- JS `a.localeCompare(b) <= 0`, modelled as lexicographic comparison on
code points (the ids in play are plain ASCII, where the default locale
collation and code-point order agree). -/
def localeLe (a b : String) : Bool := charListLe a.data b.data

theorem charListLe_trans : ∀ a b c, charListLe a b = true → charListLe b c = true →
    charListLe a c = true := by
  intro a
  induction a with
  | nil =>
    intro b c _ _
    rfl
  | cons x xs ih =>
    intro b c h1 h2
    cases b with
    | nil => exact absurd h1 (by simp [charListLe])
    | cons y ys =>
      cases c with
      | nil => exact absurd h2 (by simp [charListLe])
      | cons z zs =>
        simp only [charListLe] at h1 h2 ⊢
        rcases Nat.lt_trichotomy x.toNat y.toNat with hxy | hxy | hxy
        · rcases Nat.lt_trichotomy y.toNat z.toNat with hyz | hyz | hyz
          · simp [show x.toNat < z.toNat by omega]
          · simp [show x.toNat < z.toNat by omega]
          · rw [if_neg (by omega), if_pos (by omega)] at h2
            exact absurd h2 (by simp)
        · rcases Nat.lt_trichotomy y.toNat z.toNat with hyz | hyz | hyz
          · simp [show x.toNat < z.toNat by omega]
          · rw [if_neg (by omega), if_neg (by omega)] at h1 h2 ⊢
            exact ih ys zs h1 h2
          · rw [if_neg (by omega), if_pos (by omega)] at h2
            exact absurd h2 (by simp)
        · rw [if_neg (by omega), if_pos (by omega)] at h1
          exact absurd h1 (by simp)

theorem charListLe_total : ∀ a b, charListLe a b = true ∨ charListLe b a = true := by
  intro a
  induction a with
  | nil =>
    intro b
    exact Or.inl rfl
  | cons x xs ih =>
    intro b
    cases b with
    | nil => exact Or.inr rfl
    | cons y ys =>
      simp only [charListLe]
      rcases Nat.lt_trichotomy x.toNat y.toNat with h | h | h
      · left
        simp [h]
      · rcases ih ys with h2 | h2
        · left
          rw [if_neg (by omega), if_neg (by omega)]
          exact h2
        · right
          rw [if_neg (by omega), if_neg (by omega)]
          exact h2
      · right
        simp [h]

/-- The per-room score of `suggestions` (MapView.tsx lines 608-617): first
applicable of exact-id 100, id-starts-with 90, name-starts-with 80,
id-contains 60, name-contains 50; otherwise 0 (excluded). -/
def scoreRoom (q : String) (room : RoomMeta) : Nat :=
  let idLower := jsToLower room.id
  let nameLower := jsToLower room.name
  if idLower == q then 100
  else if jsStartsWith idLower q then 90
  else if jsStartsWith nameLower q then 80
  else if strIncludesSub idLower q then 60
  else if strIncludesSub nameLower q then 50
  else 0

/-- The sort comparator of `suggestions` (MapView.tsx lines 619-622) as a
may-precede relation: `a` may sort before `b` iff the comparator value on
`(a, b)` is at most 0, i.e. higher score first, ties by ascending id. -/
def suggLe (a b : RoomMeta × Nat) : Bool :=
  if a.2 ≠ b.2 then b.2 < a.2 else localeLe a.1.id b.1.id

/-- The scored candidate list (MapView.tsx lines 606-618): walk
`Object.values(metaById)`, skip empty-id and decorative rooms, keep
positively scored rooms with their score. -/
def scoredRooms (table : MetaTable) (q : String) : List (RoomMeta × Nat) :=
  table.filterMap (fun room =>
    if room.id == "" || isDecorativeId table room.id then none
    else if scoreRoom q room > 0 then some (room, scoreRoom q room) else none)

/-- The normalised query: `search.trim().toLowerCase()` (MapView.tsx 604). -/
def suggQuery (search : String) : String := jsToLower (jsTrim search)

/-- `suggestions` (MapView.tsx lines 603-624): empty for an empty query,
otherwise the scored rooms stably sorted by the comparator, truncated to 8,
projected back to rooms. `Array.prototype.sort` is a stable sort and is
modelled by the stable `List.mergeSort` with may-precede `suggLe`. -/
def suggestions (table : MetaTable) (search : String) : List RoomMeta :=
  if suggQuery search = "" then []
  else (((scoredRooms table (suggQuery search)).mergeSort suggLe).take 8).map (·.1)

theorem suggLe_trans (a b c : RoomMeta × Nat) (h1 : suggLe a b = true)
    (h2 : suggLe b c = true) : suggLe a c = true := by
  unfold suggLe at h1 h2 ⊢
  by_cases hab : a.2 = b.2 <;> by_cases hbc : b.2 = c.2
  · rw [if_neg (by omega)] at h1
    rw [if_neg (by omega)] at h2
    rw [if_neg (by omega)]
    exact charListLe_trans _ _ _ h1 h2
  · rw [if_pos (by omega)] at h2
    have hcb : c.2 < b.2 := by simpa using h2
    rw [if_pos (by omega)]
    simp
    omega
  · rw [if_pos (by omega)] at h1
    have hba : b.2 < a.2 := by simpa using h1
    rw [if_pos (by omega)]
    simp
    omega
  · rw [if_pos (by omega)] at h1
    rw [if_pos (by omega)] at h2
    have hba : b.2 < a.2 := by simpa using h1
    have hcb : c.2 < b.2 := by simpa using h2
    rw [if_pos (by omega)]
    simp
    omega

theorem suggLe_total (a b : RoomMeta × Nat) : suggLe a b || suggLe b a := by
  unfold suggLe
  by_cases h : a.2 = b.2
  · rw [if_neg (by omega), if_neg (by omega)]
    rcases charListLe_total a.1.id.data b.1.id.data with h2 | h2 <;>
      simp [localeLe, h2]
  · rcases Nat.lt_or_ge a.2 b.2 with h2 | h2
    · rw [if_pos (by omega), if_pos (by omega)]
      simp
      omega
    · rw [if_pos (by omega)]
      simp
      omega

/-- Membership in the scored candidate list. -/
theorem mem_scoredRooms (table : MetaTable) (q : String) (x : RoomMeta × Nat) :
    x ∈ scoredRooms table q ↔
      x.1 ∈ table ∧ x.1.id ≠ "" ∧ isDecorativeId table x.1.id = false ∧
        scoreRoom q x.1 > 0 ∧ x.2 = scoreRoom q x.1 := by
  unfold scoredRooms
  rw [List.mem_filterMap]
  constructor
  · rintro ⟨room, hmem, hf⟩
    by_cases h1 : (room.id == "" || isDecorativeId table room.id) = true
    · rw [if_pos h1] at hf
      exact absurd hf (by simp)
    · rw [if_neg h1] at hf
      by_cases h2 : scoreRoom q room > 0
      · rw [if_pos h2] at hf
        obtain ⟨hr1, hr2⟩ : room = x.1 ∧ scoreRoom q room = x.2 := by
          cases x
          simpa [Prod.ext_iff] using hf
        subst hr1
        simp only [Bool.or_eq_true, not_or] at h1
        exact ⟨hmem, by simpa using h1.1, by simpa using h1.2, h2, hr2.symm⟩
      · rw [if_neg h2] at hf
        exact absurd hf (by simp)
  · rintro ⟨hmem, hid, hdec, hpos, hsc⟩
    refine ⟨x.1, hmem, ?_⟩
    rw [if_neg (by simp [hid, hdec]), if_pos hpos]
    cases x
    simp_all

/-- C5, list-shape part: for a non-empty normalised query, the suggestion
list (i) has exactly `min 8 (number of matching rooms)` entries, (ii) is
ordered by descending score with ties broken by ascending id, (iii) contains
only positively scored non-decorative rooms of the table, (iv) — whenever at
most 8 rooms score positively — contains every positively scored
non-decorative room, and (v) is the TOP 8: every matching room left out is
dominated by every room kept (strictly lower score, or an equal score and a
tie-break id not before it), so no dropped room could outrank a kept one. -/
def SuggestionSpec (table : MetaTable) (search : String) : Prop :=
  (suggestions table search).length =
    min 8 (scoredRooms table (suggQuery search)).length ∧
  (suggestions table search).Pairwise (fun a b =>
    scoreRoom (suggQuery search) a > scoreRoom (suggQuery search) b ∨
      (scoreRoom (suggQuery search) a = scoreRoom (suggQuery search) b ∧
        localeLe a.id b.id = true)) ∧
  (∀ r ∈ suggestions table search,
    r ∈ table ∧ r.id ≠ "" ∧ isDecorativeId table r.id = false ∧
      scoreRoom (suggQuery search) r > 0) ∧
  ((scoredRooms table (suggQuery search)).length ≤ 8 →
    ∀ r ∈ table, r.id ≠ "" → isDecorativeId table r.id = false →
      scoreRoom (suggQuery search) r > 0 → r ∈ suggestions table search) ∧
  (∀ r ∈ table, r.id ≠ "" → isDecorativeId table r.id = false →
    scoreRoom (suggQuery search) r > 0 → r ∉ suggestions table search →
    ∀ s ∈ suggestions table search,
      scoreRoom (suggQuery search) s > scoreRoom (suggQuery search) r ∨
        (scoreRoom (suggQuery search) s = scoreRoom (suggQuery search) r ∧
          localeLe s.id r.id = true))

/-- The two-room table of the determinism example in the spec. -/
def ucc146Meta : RoomMeta :=
  { id := "UCC146", name := "Meeting Room", link := none, floor := none,
    description := none, category := none, categories := none, decorative := none }

/-- Second room of the determinism example. -/
def ucc100Meta : RoomMeta :=
  { id := "UCC100", name := "UCC Lab", link := none, floor := none,
    description := none, category := none, categories := none, decorative := none }

/-- Example table listed in source order UCC146 then UCC100. -/
def c5Table : MetaTable := [ucc146Meta, ucc100Meta]

/-- C5. Suggestion ranking: the scored/sorted/capped shape of the suggestion
list for every table and non-empty query, and on the concrete example table
both rooms match by id with score 90 and the tie breaks by ascending id, so
UCC100 sorts before UCC146. -/
theorem suggestion_ranking (table : MetaTable) (search : String)
    (hq : suggQuery search ≠ "") :
    SuggestionSpec table search ∧
      suggestions c5Table "ucc1" = [ucc100Meta, ucc146Meta] ∧
      scoreRoom (suggQuery "ucc1") ucc146Meta = 90 ∧
      scoreRoom (suggQuery "ucc1") ucc100Meta = 90 := by
  have hperm := List.mergeSort_perm (scoredRooms table (suggQuery search)) suggLe
  have hmem_sorted : ∀ x ∈ (((scoredRooms table (suggQuery search)).mergeSort
      suggLe).take 8), x ∈ scoredRooms table (suggQuery search) := by
    intro x hx
    exact hperm.mem_iff.mp ((List.take_sublist _ _).subset hx)
  have hsugg : suggestions table search =
      (((scoredRooms table (suggQuery search)).mergeSort suggLe).take 8).map (·.1) := by
    unfold suggestions
    rw [if_neg hq]
  have hsorted := @List.sorted_mergeSort (RoomMeta × Nat) suggLe
    (fun a b c h1 h2 => suggLe_trans a b c h1 h2)
    (fun a b => suggLe_total a b)
    (scoredRooms table (suggQuery search))
  refine ⟨⟨?_, ?_, ?_, ?_, ?_⟩, ?_, by decide, by decide⟩
  · rw [hsugg]
    simp only [List.length_map, List.length_take, hperm.length_eq]
  · rw [hsugg, List.pairwise_map]
    have htake := hsorted.sublist (List.take_sublist 8 _)
    refine htake.imp_of_mem ?_
    intro a b ha hb hle
    have ha2 := (mem_scoredRooms _ _ _).mp (hmem_sorted a ha)
    have hb2 := (mem_scoredRooms _ _ _).mp (hmem_sorted b hb)
    unfold suggLe at hle
    by_cases hab : a.2 = b.2
    · rw [if_neg (by omega)] at hle
      right
      rw [← ha2.2.2.2.2, ← hb2.2.2.2.2]
      exact ⟨hab, hle⟩
    · rw [if_pos (by omega)] at hle
      left
      rw [← ha2.2.2.2.2, ← hb2.2.2.2.2]
      simpa using hle
  · intro r hr
    rw [hsugg] at hr
    obtain ⟨x, hx, rfl⟩ := List.mem_map.mp hr
    have hx2 := (mem_scoredRooms _ _ _).mp (hmem_sorted x hx)
    exact ⟨hx2.1, hx2.2.1, hx2.2.2.1, hx2.2.2.2.1⟩
  · intro hlen r hmem hid hdec hpos
    rw [hsugg]
    have hx : (r, scoreRoom (suggQuery search) r) ∈ scoredRooms table (suggQuery search) :=
      (mem_scoredRooms _ _ _).mpr ⟨hmem, hid, hdec, hpos, rfl⟩
    have hlen2 : ((scoredRooms table (suggQuery search)).mergeSort suggLe).length ≤ 8 := by
      rw [hperm.length_eq]
      exact hlen
    rw [List.take_of_length_le hlen2]
    exact List.mem_map.mpr ⟨(r, scoreRoom (suggQuery search) r), hperm.mem_iff.mpr hx, rfl⟩
  · intro r hmem hid hdec hpos hnotin s hs
    have he : (r, scoreRoom (suggQuery search) r) ∈ scoredRooms table (suggQuery search) :=
      (mem_scoredRooms _ _ _).mpr ⟨hmem, hid, hdec, hpos, rfl⟩
    have hesorted : (r, scoreRoom (suggQuery search) r) ∈
        (scoredRooms table (suggQuery search)).mergeSort suggLe :=
      hperm.mem_iff.mpr he
    have henot : (r, scoreRoom (suggQuery search) r) ∉
        ((scoredRooms table (suggQuery search)).mergeSort suggLe).take 8 := by
      intro hc
      apply hnotin
      rw [hsugg]
      exact List.mem_map.mpr ⟨_, hc, rfl⟩
    have hedrop : (r, scoreRoom (suggQuery search) r) ∈
        ((scoredRooms table (suggQuery search)).mergeSort suggLe).drop 8 := by
      rw [← List.take_append_drop 8
        ((scoredRooms table (suggQuery search)).mergeSort suggLe)] at hesorted
      rcases List.mem_append.mp hesorted with h | h
      · exact absurd h henot
      · exact h
    rw [hsugg] at hs
    obtain ⟨x, hx, rfl⟩ := List.mem_map.mp hs
    have hpairs : ∀ a ∈ ((scoredRooms table (suggQuery search)).mergeSort suggLe).take 8,
        ∀ b ∈ ((scoredRooms table (suggQuery search)).mergeSort suggLe).drop 8,
        suggLe a b = true := by
      have hp := hsorted
      rw [← List.take_append_drop 8
        ((scoredRooms table (suggQuery search)).mergeSort suggLe)] at hp
      exact fun a ha b hb => List.pairwise_append.mp hp |>.2.2 a ha b hb
    have hle := hpairs x hx _ hedrop
    have hx2 := (mem_scoredRooms _ _ _).mp (hmem_sorted x hx)
    unfold suggLe at hle
    dsimp only at hle
    by_cases hc : x.2 = scoreRoom (suggQuery search) r
    · rw [if_neg (not_not_intro hc)] at hle
      right
      refine ⟨?_, hle⟩
      rw [← hx2.2.2.2.2]
      exact hc
    · rw [if_pos hc] at hle
      left
      rw [← hx2.2.2.2.2]
      simpa using hle
  · unfold suggestions
    rw [if_neg (by decide)]
    have hs : scoredRooms c5Table (suggQuery "ucc1") =
        [(ucc146Meta, 90), (ucc100Meta, 90)] := by decide
    have hpair : ∀ a b : RoomMeta × Nat,
        List.mergeSort [a, b] suggLe = if suggLe a b then [a, b] else [b, a] := by
      intro a b
      rw [List.mergeSort]
      simp [List.splitInTwo, List.splitAt, List.splitAt.go, List.merge]
    rw [hs, hpair,
      show suggLe (ucc146Meta, 90) (ucc100Meta, 90) = false from by decide]
    decide

/-- Witness for C5 at the example table and query. -/
theorem suggestion_ranking_witness :
    SuggestionSpec c5Table "ucc1" ∧
      suggestions c5Table "ucc1" = [ucc100Meta, ucc146Meta] ∧
      scoreRoom (suggQuery "ucc1") ucc146Meta = 90 ∧
      scoreRoom (suggQuery "ucc1") ucc100Meta = 90 :=
  suggestion_ranking c5Table "ucc1" (by decide)

/-! ## Container ids and room labels (MapView.tsx lines 96-192, 361-362) -/

/-- JS regex word character `\w` = `[A-Za-z0-9_]`. -/
def isWordChar (c : Char) : Bool :=
  (97 ≤ c.toNat && c.toNat ≤ 122) || (65 ≤ c.toNat && c.toNat ≤ 90)
    || (48 ≤ c.toNat && c.toNat ≤ 57) || c.toNat == 95

/-- The test `/^pre\b/i.test(id)` for an all-word-character pattern `pre`
(given lower-cased): the id starts with `pre` case-insensitively and the
following character, if any, is not a word character. -/
def regexWordPrefix (pre : String) (id : String) : Bool :=
  pre.data.isPrefixOf (jsToLower id).data &&
    (match (jsToLower id).data.drop pre.data.length with
     | [] => true
     | c :: _ => !(isWordChar c))

/-- The container-wrapper test (MapView.tsx lines 361-362, repeated at line
120): `/^floor\b/i.test(id) || /^layer\b/i.test(id) || id === "Layer_1"`. -/
def isContainerId (id : String) : Bool :=
  regexWordPrefix "floor" id || regexWordPrefix "layer" id || id == "Layer_1"

/-- A bounding box as returned by `getBBox()`, with rational coordinates
(the non-finite cases the source guards against cannot arise in `ℚ`). -/
structure BBox where
  x : ℚ
  y : ℚ
  width : ℚ
  height : ℚ
deriving DecidableEq, Repr

/-- Whether the measured text width at a font size fits under a limit
(MapView.tsx line 163). `widthOf` abstracts `getComputedTextLength()` for
the label text; `none` models a non-finite measurement, treated as not
fitting. -/
def textFits (widthOf : ℚ → Option ℚ) (limit fontSize : ℚ) : Bool :=
  match widthOf fontSize with
  | some w => w ≤ limit
  | none => false

/-- The font-size search loop (MapView.tsx lines 158-168): starting at the
given size and stepping down by 1 while at least the minimum legible size 8,
return the first size whose text width fits. The fuel bounds the recursion;
the loop runs at most 11 times from a start of at most 18, so any fuel of at
least 12 is exact. -/
def findFitFontSize (widthOf : ℚ → Option ℚ) (limit : ℚ) :
    ℚ → Nat → Option ℚ
  | _, 0 => none
  | fontSize, Nat.succ fuel =>
    if fontSize < 8 then none
    else if textFits widthOf limit fontSize then some fontSize
    else findFitFontSize widthOf limit (fontSize - 1) fuel

/-- The label text `(meta.name || id).trim()` (MapView.tsx line 146). -/
def labelText (meta : RoomMeta) (id : String) : String :=
  jsTrim (if meta.name ≠ "" then meta.name else id)

/-- The per-candidate body of `rebuildRoomLabels` (MapView.tsx lines
117-184), returning the chosen font size of the label for this element, or
`none` when no label is produced. Checks, in source order: non-empty id, not
a container id, not decorative (by metadata lookup), metadata present and
not decorative, not in the bathroom category, positive box dimensions,
maximum candidate size `min(20, height*0.6)` at least the minimum legible 8,
non-blank text, a fitting size from `min(18, max)` stepping down by 1, and
finally the height at least 1.1 times the chosen size. -/
def buildRoomLabel (table : MetaTable) (widthOf : ℚ → Option ℚ) (id : String)
    (bbox : BBox) : Option ℚ :=
  if id = "" then none
  else if isContainerId id then none
  else if isDecorativeId table id then none
  else match lookupMeta table id with
    | none => none
    | some meta =>
      if meta.decorative.getD false then none
      else if (collectCategories (some meta)).contains "bathroom" then none
      else if bbox.width ≤ 0 || bbox.height ≤ 0 then none
      else if min 20 (bbox.height * 6 / 10) < 8 then none
      else if labelText meta id = "" then none
      else match findFitFontSize widthOf (bbox.width * 9 / 10)
          (min 18 (min 20 (bbox.height * 6 / 10))) 32 with
        | none => none
        | some fontSize =>
          if bbox.height < fontSize * (11 / 10) then none else some fontSize

/-- Soundness of the font-size loop: a returned size is reached from the
start by unit steps, is at least 8, fits, and every larger stepped size
fails to fit (it is the largest fitting size on the scan). -/
theorem findFitFontSize_sound (widthOf : ℚ → Option ℚ) (limit : ℚ) :
    ∀ (n : Nat) (s r : ℚ), findFitFontSize widthOf limit s n = some r →
      ∃ k : Nat, r = s - k ∧ 8 ≤ r ∧ textFits widthOf limit r = true ∧
        ∀ j : Nat, j < k → textFits widthOf limit (s - j) = false := by
  intro n
  induction n with
  | zero =>
    intro s r h
    exact absurd h (by simp [findFitFontSize])
  | succ fuel ih =>
    intro s r h
    unfold findFitFontSize at h
    by_cases h1 : s < 8
    · rw [if_pos h1] at h
      exact absurd h (by simp)
    · rw [if_neg h1] at h
      by_cases h2 : textFits widthOf limit s = true
      · rw [if_pos h2] at h
        obtain rfl : s = r := by simpa using h
        exact ⟨0, by simp, le_of_not_lt h1, h2, by omega⟩
      · rw [if_neg h2] at h
        obtain ⟨k, hk, h8, hfit, hprev⟩ := ih (s - 1) r h
        refine ⟨k + 1, ?_, h8, hfit, ?_⟩
        · rw [hk]
          push_cast
          ring
        · intro j hj
          cases j with
          | zero =>
            simpa using (by simpa using h2 : textFits widthOf limit s = false)
          | succ j' =>
            have := hprev j' (by omega)
            have harg : s - (↑(j' + 1) : ℚ) = s - 1 - j' := by
              push_cast
              ring
            rw [harg]
            exact this

/-- Completeness of the font-size loop with sufficient fuel: if it fails,
no stepped size at least 8 fits. -/
theorem findFitFontSize_complete (widthOf : ℚ → Option ℚ) (limit : ℚ) :
    ∀ (n : Nat) (s : ℚ), s < 8 + n →
      findFitFontSize widthOf limit s n = none →
      ∀ k : Nat, 8 ≤ s - k → textFits widthOf limit (s - k) = false := by
  intro n
  induction n with
  | zero =>
    intro s hs _ k hk
    exfalso
    have hk0 : (0:ℚ) ≤ (k:ℚ) := by positivity
    push_cast at hs
    linarith
  | succ fuel ih =>
    intro s hs h k hk
    unfold findFitFontSize at h
    by_cases h1 : s < 8
    · exfalso
      have hk0 : (0:ℚ) ≤ (k:ℚ) := by positivity
      linarith
    · rw [if_neg h1] at h
      by_cases h2 : textFits widthOf limit s = true
      · rw [if_pos h2] at h
        exact absurd h (by simp)
      · rw [if_neg h2] at h
        cases k with
        | zero =>
          simpa using (by simpa using h2 : textFits widthOf limit s = false)
        | succ j =>
          have harg : s - (↑(j + 1) : ℚ) = s - 1 - j := by
            push_cast
            ring
          rw [harg]
          exact ih (s - 1) (by push_cast at hs ⊢; linarith) h j (by rw [← harg]; exact hk)

/-- C8. Label fitting: (i) a bounding box of height 5 produces no label;
(ii) more generally no label is produced when the maximum candidate size
`min(20, 0.6*height)` is below the minimum legible size 8; (iii) when a
label is produced with size s, s is reached from `min(18, min(20,
0.6*height))` by unit steps, is at least 8, its text width fits within 90%
of the box width, every larger stepped size fails to fit (s is the largest
fitting stepped size), and the box height is at least 1.1*s; (iv) when no
stepped size of at least 8 fits, no label is produced. -/
theorem label_fitting :
    (∀ (table : MetaTable) (widthOf : ℚ → Option ℚ) (id : String) (bbox : BBox),
      bbox.height = 5 → buildRoomLabel table widthOf id bbox = none) ∧
    (∀ (table : MetaTable) (widthOf : ℚ → Option ℚ) (id : String) (bbox : BBox),
      min 20 (bbox.height * 6 / 10) < 8 → buildRoomLabel table widthOf id bbox = none) ∧
    (∀ (table : MetaTable) (widthOf : ℚ → Option ℚ) (id : String) (bbox : BBox)
      (s : ℚ), buildRoomLabel table widthOf id bbox = some s →
      ∃ k : Nat, s = min 18 (min 20 (bbox.height * 6 / 10)) - k ∧ 8 ≤ s ∧
        textFits widthOf (bbox.width * 9 / 10) s = true ∧
        (∀ j : Nat, j < k →
          textFits widthOf (bbox.width * 9 / 10)
            (min 18 (min 20 (bbox.height * 6 / 10)) - j) = false) ∧
        ¬(bbox.height < s * (11 / 10))) ∧
    (∀ (table : MetaTable) (widthOf : ℚ → Option ℚ) (id : String) (bbox : BBox),
      (∀ k : Nat, 8 ≤ min 18 (min 20 (bbox.height * 6 / 10)) - k →
        textFits widthOf (bbox.width * 9 / 10)
          (min 18 (min 20 (bbox.height * 6 / 10)) - k) = false) →
      buildRoomLabel table widthOf id bbox = none) := by
  have hskip : ∀ (table : MetaTable) (widthOf : ℚ → Option ℚ) (id : String)
      (bbox : BBox), min 20 (bbox.height * 6 / 10) < 8 →
      buildRoomLabel table widthOf id bbox = none := by
    intro table widthOf id bbox h
    unfold buildRoomLabel
    repeat' split
    all_goals first
      | rfl
      | exact absurd h (by assumption)
  refine ⟨?_, hskip, ?_, ?_⟩
  · intro table widthOf id bbox h5
    apply hskip
    rw [h5]
    norm_num
  · intro table widthOf id bbox s h
    unfold buildRoomLabel at h
    split at h
    · exact absurd h (by simp)
    split at h
    · exact absurd h (by simp)
    split at h
    · exact absurd h (by simp)
    split at h
    · exact absurd h (by simp)
    split at h
    · exact absurd h (by simp)
    split at h
    · exact absurd h (by simp)
    split at h
    · exact absurd h (by simp)
    split at h
    · exact absurd h (by simp)
    split at h
    · exact absurd h (by simp)
    split at h
    · exact absurd h (by simp)
    case _ fs hfind =>
      split at h
      · exact absurd h (by simp)
      case _ hdrop =>
        obtain rfl : fs = s := by simpa using h
        obtain ⟨k, hk, h8, hfit, hprev⟩ :=
          findFitFontSize_sound widthOf (bbox.width * 9 / 10) 32 _ fs hfind
        exact ⟨k, hk, h8, hfit, hprev, hdrop⟩
  · intro table widthOf id bbox hnofit
    unfold buildRoomLabel
    split
    · rfl
    split
    · rfl
    split
    · rfl
    split
    · rfl
    split
    · rfl
    split
    · rfl
    split
    · rfl
    split
    · rfl
    split
    · rfl
    cases hfind : findFitFontSize widthOf (bbox.width * 9 / 10)
        (min 18 (min 20 (bbox.height * 6 / 10))) 32 with
    | none => rfl
    | some fs =>
      obtain ⟨k, hk, h8, hfit, _⟩ :=
        findFitFontSize_sound widthOf (bbox.width * 9 / 10) 32 _ fs hfind
      have := hnofit k (by rw [← hk]; exact h8)
      rw [← hk] at this
      rw [hfit] at this
      exact absurd this (by simp)

/-- Metadata record used by the C8 witness. -/
def c8Meta : RoomMeta :=
  { id := "x", name := "X", link := none, floor := none, description := none,
    category := none, categories := none, decorative := none }

/-- Witness for C8: a height-5 box yields no label; a 100 by 30 box with a
constant measured width of 5 yields the preferred size 18. -/
theorem label_fitting_witness :
    buildRoomLabel [c8Meta] (fun _ => some 5) "x" ⟨0, 0, 10, 5⟩ = none ∧
    (∃ k : Nat, (18:ℚ) = min 18 (min 20 ((30:ℚ) * 6 / 10)) - k ∧ (8:ℚ) ≤ 18 ∧
      textFits (fun _ => some 5) ((100:ℚ) * 9 / 10) 18 = true ∧
      (∀ j : Nat, j < k →
        textFits (fun _ => some 5) ((100:ℚ) * 9 / 10)
          (min 18 (min 20 ((30:ℚ) * 6 / 10)) - j) = false) ∧
      ¬((30:ℚ) < 18 * (11 / 10))) :=
  ⟨label_fitting.1 [c8Meta] (fun _ => some 5) "x" ⟨0, 0, 10, 5⟩ rfl,
    label_fitting.2.2.1 [c8Meta] (fun _ => some 5) "x" ⟨0, 0, 100, 30⟩ 18 (by
      unfold buildRoomLabel
      rw [if_neg (by decide), if_neg (by decide), if_neg (by decide)]
      simp only [show lookupMeta [c8Meta] "x" = some c8Meta from rfl]
      rw [if_neg (by decide), if_neg (by decide), if_neg (by norm_num),
        if_neg (by norm_num), if_neg (by decide)]
      have harg : min 18 (min 20 ((BBox.mk 0 0 100 30).height * 6 / 10)) = 18 := by
        norm_num
      have hlim : (BBox.mk 0 0 100 30).width * 9 / 10 = 90 := by
        norm_num
      rw [harg, hlim]
      have hfind : findFitFontSize (fun _ => some 5) 90 18 32 = some 18 := by
        rw [show (32 : Nat) = Nat.succ 31 from rfl]
        unfold findFitFontSize
        rw [if_neg (by norm_num), if_pos (by norm_num [textFits])]
      rw [hfind]
      show (if (30:ℚ) < 18 * (11 / 10) then (none : Option ℚ) else some 18) = some 18
      rw [if_neg (by norm_num)])⟩

/-! ## Hit-region resolution (MapView.tsx lines 353-418) -/

/-- A resolved hit target inside the mounted scene: its id, whether its tag
is the svg root, and whether an ancestor-or-self carries the `decorative`
class (the `el.closest(".decorative")` test). -/
structure SceneElement where
  id : String
  isSvgTag : Bool
  hasDecorativeClassAncestor : Bool
deriving DecidableEq, Repr

/-- `isDecorativeElement` (MapView.tsx lines 353-358): a null element is not
decorative; otherwise decorative by class ancestry or by metadata flag. -/
def isDecorativeElement (table : MetaTable) (el : Option SceneElement) : Bool :=
  match el with
  | none => false
  | some el => el.hasDecorativeClassAncestor || isDecorativeId table el.id

/-- Whether the click handler accepts a resolved hit (MapView.tsx lines
377-384): reject a missing hit, the svg root, decorative elements and
container ids; an accepted hit is handed to `goToRoom`. -/
def clickAccept (table : MetaTable) (hit : Option SceneElement) : Bool :=
  match hit with
  | none => false
  | some hit =>
    !hit.isSvgTag && !(isDecorativeElement table (some hit))
      && !(isContainerId hit.id)

/-- Whether the hover handler marks a hit as hovered (MapView.tsx lines
407-418): the same rejection conditions as clicking. -/
def hoverAccept (table : MetaTable) (hit : Option SceneElement) : Bool :=
  match hit with
  | none => false
  | some hit =>
    !hit.isSvgTag && !(isDecorativeElement table (some hit))
      && !(isContainerId hit.id)

/-- C7. Decorative exclusion: a region whose metadata record carries
`decorative: true` never appears in suggestions, never receives the
highlight marker for any search text or active category, is a no-op for
programmatic navigation (`goToRoom` returns false and leaves the state
unchanged), never gets a label, and is rejected by both the click and the
hover resolvers. -/
theorem decorative_exclusion (table : MetaTable) (id : String) (m : RoomMeta)
    (hid : id ≠ "") (hm : lookupMeta table id = some m)
    (hd : m.decorative = some true) :
    (∀ search, id ∉ (suggestions table search).map (·.id)) ∧
    (∀ search active, id ∉ highlightMatchIds table search active) ∧
    (∀ (present : String → Bool) (options : GoToRoomOptions) (st : SelectionState),
      goToRoom present table id options st = (false, st)) ∧
    (∀ (widthOf : ℚ → Option ℚ) (bbox : BBox),
      buildRoomLabel table widthOf id bbox = none) ∧
    (∀ el : SceneElement, el.id = id → clickAccept table (some el) = false) ∧
    (∀ el : SceneElement, el.id = id → hoverAccept table (some el) = false) := by
  have hdec : isDecorativeId table id = true := by
    unfold isDecorativeId
    rw [if_neg hid, hm]
    simp [hd]
  have hsearchfold : ∀ search, id ∈ searchMatchFold table search [] → False := by
    intro search hmem2
    unfold searchMatchFold at hmem2
    by_cases ht : jsTrim search ≠ ""
    · rw [if_pos ht, searchStep_eq_addIf, mem_foldl_addIf] at hmem2
      rcases hmem2 with hmem2 | ⟨r, _, hrid, hP⟩
      · exact absurd hmem2 (List.not_mem_nil id)
      · rw [Bool.and_eq_true] at hP
        have := hP.1
        rw [hrid, hdec] at this
        exact absurd this (by simp)
    · rw [if_neg ht] at hmem2
      exact absurd hmem2 (List.not_mem_nil id)
  refine ⟨?_, ?_, ?_, ?_, ?_, ?_⟩
  · intro search hmem
    rw [List.mem_map] at hmem
    obtain ⟨r, hr, hrid⟩ := hmem
    unfold suggestions at hr
    by_cases hq : suggQuery search = ""
    · rw [if_pos hq] at hr
      exact absurd hr (List.not_mem_nil r)
    · rw [if_neg hq] at hr
      obtain ⟨x, hx, rfl⟩ := List.mem_map.mp hr
      have hx2 := (mem_scoredRooms _ _ _).mp
        ((List.mergeSort_perm _ suggLe).mem_iff.mp ((List.take_sublist _ _).subset hx))
      have := hx2.2.2.1
      rw [hrid, hdec] at this
      exact absurd this (by simp)
  · intro search active hmem
    unfold highlightMatchIds categoryMatchFold at hmem
    by_cases ha : strTruthy active = true
    · rw [if_pos ha, categoryStep_eq_addIf, mem_foldl_addIf] at hmem
      rcases hmem with hmem | ⟨r, _, hrid, hP⟩
      · exact hsearchfold search hmem
      · rw [Bool.and_eq_true] at hP
        have := hP.1
        rw [hrid, hdec] at this
        exact absurd this (by simp)
    · rw [if_neg ha] at hmem
      exact hsearchfold search hmem
  · intro present options st
    unfold goToRoom
    rw [hm]
    simp only []
    rw [if_pos hdec]
  · intro widthOf bbox
    unfold buildRoomLabel
    rw [if_neg hid]
    by_cases hc : isContainerId id = true
    · rw [if_pos hc]
    · rw [if_neg hc, if_pos hdec]
  · intro el hel
    simp [clickAccept, isDecorativeElement, hel, hdec]
  · intro el hel
    simp [hoverAccept, isDecorativeElement, hel, hdec]

/-- The decorative room used by the C7 witness. -/
def decoMeta : RoomMeta :=
  { id := "deco", name := "Secret Lab", link := none, floor := none,
    description := none, category := some (.str "lab"), categories := none,
    decorative := some true }

/-- An idle interaction state used by the C7 witness. -/
def c7State : SelectionState :=
  { floor := 1, search := "", focusedSuggestionIndex := -1, activeCategory := none,
    selectionHistory := [], pendingSelection := none, selected := none }

/-- Witness for C7 at a concrete decorative room whose id and name match the
search text and whose category matches the active tag. -/
theorem decorative_exclusion_witness :
    "deco" ∉ (suggestions [decoMeta] "deco").map (·.id) ∧
    "deco" ∉ highlightMatchIds [decoMeta] "deco" (some "lab") ∧
    goToRoom (fun _ => true) [decoMeta] "deco"
      { updateSearch := true, clearCategory := true, highlight := true } c7State =
      (false, c7State) ∧
    buildRoomLabel [decoMeta] (fun _ => some 1) "deco" ⟨0, 0, 100, 30⟩ = none ∧
    clickAccept [decoMeta] (some ⟨"deco", false, false⟩) = false ∧
    hoverAccept [decoMeta] (some ⟨"deco", false, false⟩) = false := by
  have h := decorative_exclusion [decoMeta] "deco" decoMeta (by decide)
    (by decide) rfl
  exact ⟨h.1 "deco", h.2.1 "deco" (some "lab"), h.2.2.1 _ _ _, h.2.2.2.1 _ _,
    h.2.2.2.2.1 _ rfl, h.2.2.2.2.2 _ rfl⟩

/-! ## Gesture controller (MapView.tsx lines 469-601)

The two-pointer distance `Math.hypot(...)` involves a square root; it is
abstracted by a parameter `dist : Point → Point → ℚ`, and every theorem
below holds for an arbitrary such function. The zoom buttons use the host
center, abstracted by a parameter `center : Point`. -/

/-- `panState.current` (MapView.tsx lines 63-70). -/
structure PanState where
  pointerId : Nat
  start : Point
  origin : ViewTransform
deriving DecidableEq, Repr

/-- `pinchState.current` (MapView.tsx lines 71-78). -/
structure PinchState where
  initialDistance : ℚ
  midpointContent : Point
  origin : ViewTransform
deriving DecidableEq, Repr

/-- The mutable gesture refs: the pointer map (insertion-ordered, as a JS
`Map`), the pan state, the pinch state and the current transform. -/
structure GestureState where
  activePointers : List (Nat × Point)
  panState : Option PanState
  pinchState : Option PinchState
  transform : ViewTransform
deriving DecidableEq, Repr

/-- JS `Map.set`: update in place when the key exists (keeping insertion
order), append otherwise. -/
def mapSet (m : List (Nat × Point)) (k : Nat) (v : Point) : List (Nat × Point) :=
  if m.any (fun e => e.1 == k) then
    m.map (fun e => if e.1 == k then (k, v) else e)
  else m ++ [(k, v)]

/-- JS `Map.delete`. -/
def mapDelete (m : List (Nat × Point)) (k : Nat) : List (Nat × Point) :=
  m.filter (fun e => e.1 != k)

/-- JS `Map.has`. -/
def mapHas (m : List (Nat × Point)) (k : Nat) : Bool :=
  m.any (fun e => e.1 == k)

/-- `onPointerDown` (MapView.tsx lines 491-519): track the pointer; a first
pointer starts panning (clearing pinch), a second pointer starts pinching
(clearing pan), further pointers only get tracked. -/
def onPointerDown (dist : Point → Point → ℚ) (st : GestureState) (pid : Nat)
    (point : Point) : GestureState :=
  let pointers := mapSet st.activePointers pid point
  if pointers.length == 1 then
    { st with
      activePointers := pointers,
      panState := some { pointerId := pid, start := point, origin := st.transform },
      pinchState := none }
  else if pointers.length == 2 then
    match pointers with
    | p1 :: p2 :: _ =>
      let midpoint : Point := ⟨(p1.2.x + p2.2.x) / 2, (p1.2.y + p2.2.y) / 2⟩
      let origin := st.transform
      let contentMid : Point := ⟨(midpoint.x - origin.x) / origin.scale,
        (midpoint.y - origin.y) / origin.scale⟩
      { st with
        activePointers := pointers,
        pinchState := some { initialDistance := dist p1.2 p2.2,
                             midpointContent := contentMid,
                             origin := origin },
        panState := none }
    | _ => { st with activePointers := pointers }
  else { st with activePointers := pointers }

/-- `onPointerMove` (MapView.tsx lines 521-560): ignore untracked pointers;
with two pointers and an active pinch, rescale about the fixed content
midpoint (ignoring the frame when the initial distance is zero); with one
pointer and a matching pan, translate by the drag delta. -/
def onPointerMove (dist : Point → Point → ℚ) (st : GestureState) (pid : Nat)
    (point : Point) : GestureState :=
  if !(mapHas st.activePointers pid) then st
  else
    let pointers := mapSet st.activePointers pid point
    let st1 := { st with activePointers := pointers }
    if pointers.length == 2 && st1.pinchState.isSome then
      match pointers, st1.pinchState with
      | p1 :: p2 :: _, some pinch =>
        let midpoint : Point := ⟨(p1.2.x + p2.2.x) / 2, (p1.2.y + p2.2.y) / 2⟩
        if pinch.initialDistance = 0 then st1
        else
          let targetScale :=
            clampScale (pinch.origin.scale * (dist p1.2 p2.2 / pinch.initialDistance))
          { st1 with transform :=
            { scale := targetScale,
              x := midpoint.x - pinch.midpointContent.x * targetScale,
              y := midpoint.y - pinch.midpointContent.y * targetScale } }
      | _, _ => st1
    else if pointers.length == 1 then
      match st1.panState with
      | some pan =>
        if pan.pointerId == pid then
          { st1 with transform :=
            { scale := pan.origin.scale,
              x := pan.origin.x + (point.x - pan.start.x),
              y := pan.origin.y + (point.y - pan.start.y) } }
        else st1
      | none => st1
    else st1

/-- `clearPointer` (MapView.tsx lines 562-570): untrack the pointer; clear
pan when it was the pan pointer; clear pinch when fewer than two pointers
remain. -/
def clearPointer (st : GestureState) (pid : Nat) : GestureState :=
  let pointers := mapDelete st.activePointers pid
  { activePointers := pointers,
    panState := match st.panState with
      | some pan => if pan.pointerId == pid then none else some pan
      | none => none,
    pinchState := if pointers.length < 2 then none else st.pinchState,
    transform := st.transform }

/-- The events the gesture surface receives: pointer events, wheel ticks
(MapView.tsx lines 483-489, factor 1.2 or 1/1.2 by wheel direction, focused
at the cursor) and the three toolbar buttons (lines 589-601). -/
inductive MapEvent where
  | pointerDown (pointerId : Nat) (p : Point)
  | pointerMove (pointerId : Nat) (p : Point)
  | pointerUp (pointerId : Nat)
  | pointerCancel (pointerId : Nat)
  | pointerLeave (pointerId : Nat)
  | wheel (deltaYPositive : Bool) (p : Point)
  | zoomInButton
  | zoomOutButton
  | resetButton
deriving DecidableEq, Repr

/-- One event step of the gesture controller. -/
def step (dist : Point → Point → ℚ) (center : Point) (st : GestureState) :
    MapEvent → GestureState
  | .pointerDown pid p => onPointerDown dist st pid p
  | .pointerMove pid p => onPointerMove dist st pid p
  | .pointerUp pid => clearPointer st pid
  | .pointerCancel pid => clearPointer st pid
  | .pointerLeave pid => clearPointer st pid
  | .wheel dYPos p =>
    { st with transform := zoomAt st.transform (if dYPos then 5 / 6 else 6 / 5) p }
  | .zoomInButton => { st with transform := zoomAt st.transform (6 / 5) center }
  | .zoomOutButton => { st with transform := zoomAt st.transform (5 / 6) center }
  | .resetButton => { st with transform := DEFAULT_TRANSFORM }

/-- The idle initial state: no pointers, no gesture, default transform. -/
def initGestureState : GestureState :=
  { activePointers := [], panState := none, pinchState := none,
    transform := DEFAULT_TRANSFORM }

/-- Run a sequence of events from the idle state. -/
def runEvents (dist : Point → Point → ℚ) (center : Point)
    (evs : List MapEvent) : GestureState :=
  evs.foldl (step dist center) initGestureState

/-- Pan state and pinch state are never both populated. -/
def PanPinchExclusive (st : GestureState) : Prop :=
  st.panState = none ∨ st.pinchState = none

theorem onPointerDown_exclusive (dist : Point → Point → ℚ) (st : GestureState)
    (pid : Nat) (point : Point) (h : PanPinchExclusive st) :
    PanPinchExclusive (onPointerDown dist st pid point) := by
  simp only [onPointerDown]
  split
  · right
    rfl
  split
  · split
    · left
      rfl
    · exact h
  · exact h

theorem onPointerMove_exclusive (dist : Point → Point → ℚ) (st : GestureState)
    (pid : Nat) (point : Point) (h : PanPinchExclusive st) :
    PanPinchExclusive (onPointerMove dist st pid point) := by
  simp only [onPointerMove]
  split
  · exact h
  split
  · split
    · split
      · exact h
      · exact h
    · exact h
  split
  · split
    · split
      · exact h
      · exact h
    · exact h
  · exact h

theorem clearPointer_exclusive (st : GestureState) (pid : Nat)
    (h : PanPinchExclusive st) : PanPinchExclusive (clearPointer st pid) := by
  simp only [clearPointer]
  rcases h with h | h
  · left
    rw [h]
  · right
    simp only []
    split
    · rfl
    · exact h

theorem step_exclusive (dist : Point → Point → ℚ) (center : Point)
    (st : GestureState) (e : MapEvent) (h : PanPinchExclusive st) :
    PanPinchExclusive (step dist center st e) := by
  cases e with
  | pointerDown pid p => exact onPointerDown_exclusive dist st pid p h
  | pointerMove pid p => exact onPointerMove_exclusive dist st pid p h
  | pointerUp pid => exact clearPointer_exclusive st pid h
  | pointerCancel pid => exact clearPointer_exclusive st pid h
  | pointerLeave pid => exact clearPointer_exclusive st pid h
  | wheel dYPos p => exact h
  | zoomInButton => exact h
  | zoomOutButton => exact h
  | resetButton => exact h

theorem foldl_exclusive (dist : Point → Point → ℚ) (center : Point) :
    ∀ (evs : List MapEvent) (st : GestureState), PanPinchExclusive st →
      PanPinchExclusive (evs.foldl (step dist center) st) := by
  intro evs
  induction evs with
  | nil =>
    intro st h
    exact h
  | cons e rest ih =>
    intro st h
    exact ih _ (step_exclusive dist center st e h)

/-- C10. Gesture-state mutual exclusion: after any sequence of events from
the idle state, the pan state and the pinch state are never both non-null. -/
theorem gesture_mutual_exclusion (dist : Point → Point → ℚ) (center : Point)
    (evs : List MapEvent) :
    ¬((runEvents dist center evs).panState.isSome ∧
      (runEvents dist center evs).pinchState.isSome) := by
  have h := foldl_exclusive dist center evs initGestureState (Or.inl rfl)
  rintro ⟨hpan, hpinch⟩
  unfold runEvents at hpan hpinch
  rcases h with h | h
  · rw [h] at hpan
    exact absurd hpan (by simp)
  · rw [h] at hpinch
    exact absurd hpinch (by simp)

/-! ### Scale clamping invariant and convergence (C6) -/

/-- The scale bounds together with the bounds of any captured gesture
origin — the inductive invariant behind C6. -/
def ScaleInvariant (st : GestureState) : Prop :=
  (3 / 4 ≤ st.transform.scale ∧ st.transform.scale ≤ 3) ∧
  (∀ pan, st.panState = some pan →
    3 / 4 ≤ pan.origin.scale ∧ pan.origin.scale ≤ 3) ∧
  (∀ pinch, st.pinchState = some pinch →
    3 / 4 ≤ pinch.origin.scale ∧ pinch.origin.scale ≤ 3)

theorem clampScale_mem (v : ℚ) : 3 / 4 ≤ clampScale v ∧ clampScale v ≤ 3 :=
  ⟨le_min (by norm_num) (le_max_left _ _), min_le_left _ _⟩

/-- The updated transform of `zoomAt` always carries the clamped product —
in the identity branch because the clamped product equals the old scale. -/
theorem zoomAt_scale_eq (t : ViewTransform) (f : ℚ) (p : Point) :
    (zoomAt t f p).scale = clampScale (t.scale * f) := by
  simp only [zoomAt]
  split
  case isTrue h => exact h.symm
  case isFalse => rfl

theorem zoomAt_scale_bounds (t : ViewTransform) (f : ℚ) (p : Point) :
    3 / 4 ≤ (zoomAt t f p).scale ∧ (zoomAt t f p).scale ≤ 3 := by
  rw [zoomAt_scale_eq]
  exact clampScale_mem _

theorem onPointerDown_scaleInv (dist : Point → Point → ℚ) (st : GestureState)
    (pid : Nat) (point : Point) (h : ScaleInvariant st) :
    ScaleInvariant (onPointerDown dist st pid point) := by
  obtain ⟨hs, hpan, hpinch⟩ := h
  simp only [onPointerDown]
  split
  · refine ⟨hs, ?_, ?_⟩
    · intro pan hp
      obtain rfl : { pointerId := pid, start := point, origin := st.transform } = pan := by
        simpa using hp
      exact hs
    · intro pinch hp
      exact absurd hp (by simp)
  split
  · split
    · refine ⟨hs, ?_, ?_⟩
      · intro pan hp
        exact absurd hp (by simp)
      · intro pinch hp
        obtain rfl : _ = pinch := by
          simpa using hp
        exact hs
    · exact ⟨hs, hpan, hpinch⟩
  · exact ⟨hs, hpan, hpinch⟩

theorem onPointerMove_scaleInv (dist : Point → Point → ℚ) (st : GestureState)
    (pid : Nat) (point : Point) (h : ScaleInvariant st) :
    ScaleInvariant (onPointerMove dist st pid point) := by
  obtain ⟨hs, hpan, hpinch⟩ := h
  simp only [onPointerMove]
  split
  · exact ⟨hs, hpan, hpinch⟩
  split
  · split
    · split
      · exact ⟨hs, hpan, hpinch⟩
      · exact ⟨clampScale_mem _, hpan, hpinch⟩
    · exact ⟨hs, hpan, hpinch⟩
  split
  · split
    · rename_i pan heq
      split
      · exact ⟨hpan pan heq, hpan, hpinch⟩
      · exact ⟨hs, hpan, hpinch⟩
    · exact ⟨hs, hpan, hpinch⟩
  · exact ⟨hs, hpan, hpinch⟩

theorem clearPointer_scaleInv (st : GestureState) (pid : Nat)
    (h : ScaleInvariant st) : ScaleInvariant (clearPointer st pid) := by
  obtain ⟨hs, hpan, hpinch⟩ := h
  simp only [clearPointer]
  refine ⟨hs, ?_, ?_⟩
  · intro pan hp
    simp only [] at hp
    split at hp
    case _ pan0 heq =>
      split at hp
      · exact absurd hp (by simp)
      · obtain rfl : pan0 = pan := by
          simpa using hp
        exact hpan _ heq
    · exact absurd hp (by simp)
  · intro pinch hp
    simp only [] at hp
    split at hp
    · exact absurd hp (by simp)
    · exact hpinch pinch hp

theorem step_scaleInv (dist : Point → Point → ℚ) (center : Point)
    (st : GestureState) (e : MapEvent) (h : ScaleInvariant st) :
    ScaleInvariant (step dist center st e) := by
  cases e with
  | pointerDown pid p => exact onPointerDown_scaleInv dist st pid p h
  | pointerMove pid p => exact onPointerMove_scaleInv dist st pid p h
  | pointerUp pid => exact clearPointer_scaleInv st pid h
  | pointerCancel pid => exact clearPointer_scaleInv st pid h
  | pointerLeave pid => exact clearPointer_scaleInv st pid h
  | wheel dYPos p => exact ⟨zoomAt_scale_bounds _ _ _, h.2.1, h.2.2⟩
  | zoomInButton => exact ⟨zoomAt_scale_bounds _ _ _, h.2.1, h.2.2⟩
  | zoomOutButton => exact ⟨zoomAt_scale_bounds _ _ _, h.2.1, h.2.2⟩
  | resetButton =>
    refine ⟨⟨?_, ?_⟩, h.2.1, h.2.2⟩ <;> norm_num [step, DEFAULT_TRANSFORM]

theorem foldl_scaleInv (dist : Point → Point → ℚ) (center : Point) :
    ∀ (evs : List MapEvent) (st : GestureState), ScaleInvariant st →
      ScaleInvariant (evs.foldl (step dist center) st) := by
  intro evs
  induction evs with
  | nil =>
    intro st h
    exact h
  | cons e rest ih =>
    intro st h
    exact ih _ (step_scaleInv dist center st e h)

/-- The scale map of one zoom-out (factor `1/1.2 = 5/6`). -/
def zoomOutStepScale (s : ℚ) : ℚ := clampScale (s * (5 / 6))

/-- The scale map of one zoom-in (factor `1.2 = 6/5`). -/
def zoomInStepScale (s : ℚ) : ℚ := clampScale (s * (6 / 5))

theorem zoomOutStepScale_mono : Monotone zoomOutStepScale := by
  intro a b hab
  unfold zoomOutStepScale clampScale
  exact min_le_min le_rfl (max_le_max le_rfl
    (mul_le_mul_of_nonneg_right hab (by norm_num)))

theorem zoomInStepScale_mono : Monotone zoomInStepScale := by
  intro a b hab
  unfold zoomInStepScale clampScale
  exact min_le_min le_rfl (max_le_max le_rfl
    (mul_le_mul_of_nonneg_right hab (by norm_num)))

theorem iterStep (f : ℚ → ℚ) (n : Nat) (x y : ℚ) (hxy : f x = y) :
    f^[n + 1] x = f^[n] y := by
  rw [Function.iterate_succ_apply, hxy]

theorem zoomOut_iter8_top : zoomOutStepScale^[8] (3 : ℚ) = 3 / 4 := by
  calc zoomOutStepScale^[8] (3 : ℚ)
      = zoomOutStepScale^[7] (5 / 2) :=
        iterStep _ 7 _ _ (by norm_num [zoomOutStepScale, clampScale])
    _ = zoomOutStepScale^[6] (25 / 12) :=
        iterStep _ 6 _ _ (by norm_num [zoomOutStepScale, clampScale])
    _ = zoomOutStepScale^[5] (125 / 72) :=
        iterStep _ 5 _ _ (by norm_num [zoomOutStepScale, clampScale])
    _ = zoomOutStepScale^[4] (625 / 432) :=
        iterStep _ 4 _ _ (by norm_num [zoomOutStepScale, clampScale])
    _ = zoomOutStepScale^[3] (3125 / 2592) :=
        iterStep _ 3 _ _ (by norm_num [zoomOutStepScale, clampScale])
    _ = zoomOutStepScale^[2] (15625 / 15552) :=
        iterStep _ 2 _ _ (by norm_num [zoomOutStepScale, clampScale])
    _ = zoomOutStepScale^[1] (78125 / 93312) :=
        iterStep _ 1 _ _ (by norm_num [zoomOutStepScale, clampScale])
    _ = zoomOutStepScale^[0] (3 / 4) :=
        iterStep _ 0 _ _ (by norm_num [zoomOutStepScale, clampScale])
    _ = 3 / 4 := rfl

theorem zoomIn_iter8_bottom : zoomInStepScale^[8] (3 / 4 : ℚ) = 3 := by
  calc zoomInStepScale^[8] (3 / 4 : ℚ)
      = zoomInStepScale^[7] (9 / 10) :=
        iterStep _ 7 _ _ (by norm_num [zoomInStepScale, clampScale])
    _ = zoomInStepScale^[6] (27 / 25) :=
        iterStep _ 6 _ _ (by norm_num [zoomInStepScale, clampScale])
    _ = zoomInStepScale^[5] (162 / 125) :=
        iterStep _ 5 _ _ (by norm_num [zoomInStepScale, clampScale])
    _ = zoomInStepScale^[4] (972 / 625) :=
        iterStep _ 4 _ _ (by norm_num [zoomInStepScale, clampScale])
    _ = zoomInStepScale^[3] (5832 / 3125) :=
        iterStep _ 3 _ _ (by norm_num [zoomInStepScale, clampScale])
    _ = zoomInStepScale^[2] (34992 / 15625) :=
        iterStep _ 2 _ _ (by norm_num [zoomInStepScale, clampScale])
    _ = zoomInStepScale^[1] (209952 / 78125) :=
        iterStep _ 1 _ _ (by norm_num [zoomInStepScale, clampScale])
    _ = zoomInStepScale^[0] (3 : ℚ) :=
        iterStep _ 0 _ _ (by norm_num [zoomInStepScale, clampScale])
    _ = 3 := rfl

theorem zoomOut_iter_fixed : ∀ m : ℕ, zoomOutStepScale^[m] (3 / 4 : ℚ) = 3 / 4 := by
  intro m
  induction m with
  | zero => rfl
  | succ k ih =>
    rw [Function.iterate_succ_apply', ih]
    norm_num [zoomOutStepScale, clampScale]

theorem zoomIn_iter_fixed : ∀ m : ℕ, zoomInStepScale^[m] (3 : ℚ) = 3 := by
  intro m
  induction m with
  | zero => rfl
  | succ k ih =>
    rw [Function.iterate_succ_apply', ih]
    norm_num [zoomInStepScale, clampScale]

theorem zoomOut_converges (s : ℚ) (h1 : 3 / 4 ≤ s) (h2 : s ≤ 3) :
    ∀ n : ℕ, 8 ≤ n → zoomOutStepScale^[n] s = 3 / 4 := by
  have h8 : zoomOutStepScale^[8] s = 3 / 4 := by
    apply le_antisymm
    · calc zoomOutStepScale^[8] s ≤ zoomOutStepScale^[8] 3 :=
          zoomOutStepScale_mono.iterate 8 h2
        _ = 3 / 4 := zoomOut_iter8_top
    · rw [show (8 : ℕ) = 7 + 1 from rfl, Function.iterate_succ_apply']
      exact le_min (by norm_num) (le_max_left _ _)
  intro n hn
  obtain ⟨m, rfl⟩ : ∃ m, n = m + 8 := ⟨n - 8, by omega⟩
  rw [Function.iterate_add_apply, h8, zoomOut_iter_fixed]

theorem zoomIn_converges (s : ℚ) (h1 : 3 / 4 ≤ s) (h2 : s ≤ 3) :
    ∀ n : ℕ, 8 ≤ n → zoomInStepScale^[n] s = 3 := by
  have h8 : zoomInStepScale^[8] s = 3 := by
    apply le_antisymm
    · rw [show (8 : ℕ) = 7 + 1 from rfl, Function.iterate_succ_apply']
      exact min_le_left _ _
    · calc (3 : ℚ) = zoomInStepScale^[8] (3 / 4) := zoomIn_iter8_bottom.symm
        _ ≤ zoomInStepScale^[8] s := zoomInStepScale_mono.iterate 8 h1
  intro n hn
  obtain ⟨m, rfl⟩ : ∃ m, n = m + 8 := ⟨n - 8, by omega⟩
  rw [Function.iterate_add_apply, h8, zoomIn_iter_fixed]

theorem step_zoomOutButton_scale (dist : Point → Point → ℚ) (center : Point)
    (st : GestureState) :
    (step dist center st MapEvent.zoomOutButton).transform.scale =
      zoomOutStepScale st.transform.scale := by
  simp only [step]
  rw [zoomAt_scale_eq]
  rfl

theorem step_zoomInButton_scale (dist : Point → Point → ℚ) (center : Point)
    (st : GestureState) :
    (step dist center st MapEvent.zoomInButton).transform.scale =
      zoomInStepScale st.transform.scale := by
  simp only [step]
  rw [zoomAt_scale_eq]
  rfl

theorem foldl_replicate_zoomOut (dist : Point → Point → ℚ) (center : Point) :
    ∀ (n : ℕ) (st : GestureState),
      ((List.replicate n MapEvent.zoomOutButton).foldl (step dist center)
        st).transform.scale = zoomOutStepScale^[n] st.transform.scale := by
  intro n
  induction n with
  | zero =>
    intro st
    rfl
  | succ k ih =>
    intro st
    rw [List.replicate_succ, List.foldl_cons, ih, step_zoomOutButton_scale,
      ← Function.iterate_succ_apply]

theorem foldl_replicate_zoomIn (dist : Point → Point → ℚ) (center : Point) :
    ∀ (n : ℕ) (st : GestureState),
      ((List.replicate n MapEvent.zoomInButton).foldl (step dist center)
        st).transform.scale = zoomInStepScale^[n] st.transform.scale := by
  intro n
  induction n with
  | zero =>
    intro st
    rfl
  | succ k ih =>
    intro st
    rw [List.replicate_succ, List.foldl_cons, ih, step_zoomInButton_scale,
      ← Function.iterate_succ_apply]

theorem runEvents_append (dist : Point → Point → ℚ) (center : Point)
    (evs1 evs2 : List MapEvent) :
    runEvents dist center (evs1 ++ evs2) =
      evs2.foldl (step dist center) (runEvents dist center evs1) := by
  unfold runEvents
  rw [List.foldl_append]

/-- C6. Scale clamping: starting from the default transform, after any
sequence of pointer, pinch, wheel, toolbar and reset events the scale lies
in [0.75, 3]; appending 8 or more zoom-out steps to any event sequence
leaves the scale exactly at 0.75 (and never below), and appending 8 or more
zoom-in steps leaves it exactly at 3. -/
theorem scale_clamping (dist : Point → Point → ℚ) (center : Point) :
    (∀ evs : List MapEvent,
      3 / 4 ≤ (runEvents dist center evs).transform.scale ∧
        (runEvents dist center evs).transform.scale ≤ 3) ∧
    (∀ (evs : List MapEvent) (n : ℕ), 8 ≤ n →
      (runEvents dist center
        (evs ++ List.replicate n MapEvent.zoomOutButton)).transform.scale = 3 / 4) ∧
    (∀ (evs : List MapEvent) (n : ℕ), 8 ≤ n →
      (runEvents dist center
        (evs ++ List.replicate n MapEvent.zoomInButton)).transform.scale = 3) := by
  have hinv : ∀ evs : List MapEvent, ScaleInvariant (runEvents dist center evs) := by
    intro evs
    apply foldl_scaleInv
    refine ⟨⟨?_, ?_⟩, ?_, ?_⟩
    · norm_num [initGestureState, DEFAULT_TRANSFORM]
    · norm_num [initGestureState, DEFAULT_TRANSFORM]
    · intro pan hp
      exact absurd hp (by simp [initGestureState])
    · intro pinch hp
      exact absurd hp (by simp [initGestureState])
  refine ⟨fun evs => (hinv evs).1, ?_, ?_⟩
  · intro evs n hn
    rw [runEvents_append, foldl_replicate_zoomOut]
    exact zoomOut_converges _ (hinv evs).1.1 (hinv evs).1.2 n hn
  · intro evs n hn
    rw [runEvents_append, foldl_replicate_zoomIn]
    exact zoomIn_converges _ (hinv evs).1.1 (hinv evs).1.2 n hn

/-- Witness for C6 with a trivial distance function and center. -/
theorem scale_clamping_witness :
    (3 / 4 ≤ (runEvents (fun _ _ => 0) ⟨0, 0⟩
        [MapEvent.zoomInButton]).transform.scale ∧
      (runEvents (fun _ _ => 0) ⟨0, 0⟩
        [MapEvent.zoomInButton]).transform.scale ≤ 3) ∧
    (runEvents (fun _ _ => 0) ⟨0, 0⟩
      ([] ++ List.replicate 8 MapEvent.zoomOutButton)).transform.scale = 3 / 4 ∧
    (runEvents (fun _ _ => 0) ⟨0, 0⟩
      ([] ++ List.replicate 9 MapEvent.zoomInButton)).transform.scale = 3 :=
  ⟨(scale_clamping (fun _ _ => 0) ⟨0, 0⟩).1 [MapEvent.zoomInButton],
    (scale_clamping (fun _ _ => 0) ⟨0, 0⟩).2.1 [] 8 (by norm_num),
    (scale_clamping (fun _ _ => 0) ⟨0, 0⟩).2.2 [] 9 (by norm_num)⟩

end UCCMap
